import Mathlib

/-
Verification of the reloader development-loop orchestrator.

The definitions below are a shallow embedding of the Go sources:
  - cmd_run.go: receiveWatchChanges (change aggregator), buildApp,
    appManager (process supervisor loop), stopProcess (stop protocol).
  - cmd_test_.go: the test-mode reload loop.

Time is modelled in milliseconds for the aggregator and in seconds for
the supervisor's backoff, as in the source. Channels carrying unit
signals are modelled by the count of pending signals together with the
capacity declared at the make() site.
-/

namespace Reloader

/-! ### Change aggregator (receiveWatchChanges, cmd_run.go:99-154) -/

inductive Decision
| rebuild
| restart
deriving DecidableEq, Repr

inductive FileClass
| build
| restartOnly
| ignored
deriving DecidableEq, Repr

/-- Go's `filepath.Ext`: scan backwards from the end of the path; stop at a
path separator; return the suffix starting at the final dot. The accumulator
holds the characters after the candidate dot, in forward order. -/
def extRevAux : List Char → List Char → Option String
| [], _ => none
| c :: rest, acc =>
  if c = '/' then none
  else if c = '.' then some ⟨'.' :: acc⟩
  else extRevAux rest (c :: acc)

def fileExt (p : String) : String :=
  match extRevAux p.data.reverse [] with
  | some s => s
  | none => ""

/-- Classification in the `case change := <-changes` branch (cmd_run.go:116-125):
`.go` means rebuild, an extension in the restart list means restart, anything
else is ignored. -/
def classify (restartExts : List String) (p : String) : FileClass :=
  if fileExt p = ".go" then FileClass.build
  else if restartExts.contains (fileExt p) then FileClass.restartOnly
  else FileClass.ignored

/-- The debounce quiet period: `50 * time.Millisecond` (cmd_run.go:128). -/
def debounceMs : Nat := 50

/-- State of the aggregator loop: the `buildPending` flag and the armed
debounce timer, represented by its absolute firing deadline (the timer
variable `waitNextChange`, `none` when nil). -/
structure AggState where
  buildPending : Bool
  deadline : Option Nat
deriving DecidableEq, Repr

def initAgg : AggState := ⟨false, none⟩

/-- The `case <-ch` timer branch (cmd_run.go:136-150): clear the timer; if a
build is pending emit a rebuild and clear the flag, otherwise emit a restart. -/
def fireDecision (s : AggState) : AggState × Decision :=
  if s.buildPending then (⟨false, none⟩, Decision.rebuild)
  else (⟨s.buildPending, none⟩, Decision.restart)

/-- Handling one change event at time `now` (cmd_run.go:116-134): classify,
and on a non-ignored event (re)arm the debounce timer 50ms from now. -/
def onChange (exts : List String) (s : AggState) (now : Nat) (p : String) : AggState :=
  match classify exts p with
  | FileClass.build => ⟨true, some (now + debounceMs)⟩
  | FileClass.restartOnly => ⟨s.buildPending, some (now + debounceMs)⟩
  | FileClass.ignored => s

/-- If the armed timer's deadline has passed by time `now`, it fires before
the next event is handled. -/
def maybeFire (s : AggState) (now : Nat) : AggState × List (Nat × Decision) :=
  match s.deadline with
  | some d =>
    if d ≤ now then
      let fd := fireDecision s
      (fd.1, [(d, fd.2)])
    else (s, [])
  | none => (s, [])

/-- Run the aggregator over a time-ordered list of (time, path) change events,
firing the timer between events whenever its deadline elapses. Returns the
final state and the timestamped decisions emitted along the way. -/
def runAgg (exts : List String) : AggState → List (Nat × String) → AggState × List (Nat × Decision)
| s, [] => (s, [])
| s, (t, p) :: rest =>
  let m := maybeFire s t
  let s2 := onChange exts m.1 t p
  let r := runAgg exts s2 rest
  (r.1, m.2 ++ r.2)

/-- Once no further events arrive, an armed timer eventually fires. -/
def finalFlush (s : AggState) : List (Nat × Decision) :=
  match s.deadline with
  | some d => [(d, (fireDecision s).2)]
  | none => []

/-- All decisions emitted for a finite event burst followed by quiescence. -/
def aggTrace (exts : List String) (events : List (Nat × String)) : List (Nat × Decision) :=
  let r := runAgg exts initAgg events
  r.2 ++ finalFlush r.1

/-- Aggregator state after the burst has been fully flushed. -/
def aggFinal (exts : List String) (events : List (Nat × String)) : AggState :=
  let r := runAgg exts initAgg events
  match r.1.deadline with
  | some _ => (fireDecision r.1).1
  | none => r.1

/-- Each event arrives before the deadline armed by the previous one:
`tp ≤ t < tp + 50` for each consecutive pair starting from `tp`. -/
def chainFrom (tp : Nat) : List (Nat × String) → Bool
| [] => true
| (t, _) :: rest => decide (tp ≤ t) && decide (t < tp + debounceMs) && chainFrom t rest

/-- Time of the last event, defaulting to `tp` for an empty list. -/
def lastTimeFrom (tp : Nat) : List (Nat × String) → Nat
| [] => tp
| (t, _) :: rest => lastTimeFrom t rest

def allClassified (exts : List String) (events : List (Nat × String)) : Bool :=
  events.all (fun e => decide (classify exts e.2 ≠ FileClass.ignored))

def anyBuild (exts : List String) (events : List (Nat × String)) : Bool :=
  events.any (fun e => decide (classify exts e.2 = FileClass.build))

def allRestartOnly (exts : List String) (events : List (Nat × String)) : Bool :=
  events.all (fun e => decide (classify exts e.2 = FileClass.restartOnly))

def allIgnored (exts : List String) (events : List (Nat × String)) : Bool :=
  events.all (fun e => decide (classify exts e.2 = FileClass.ignored))

/-! ### Signal channels (cmd_run.go:52-53)

`rebuild := make(chan empty)` is unbuffered; `restart := make(chan empty, 1)`
has capacity one. A non-blocking send (`select { case ch <- v: default: }`)
adds a signal when the buffer has room and drops it otherwise. -/

def rebuildCap : Nat := 0

def restartCap : Nat := 1

def trySend (cap n : Nat) : Nat := if n < cap then n + 1 else n

/-! ### Build coordinator and process supervisor (cmd_run.go:156-263) -/

inductive BuildExec
| success
| exitError
| otherError
deriving DecidableEq, Repr

inductive BuildErr
| buildFailed
| fatal
deriving DecidableEq, Repr

/-- Observable actions of the supervisor, recorded in order. -/
inductive Action
| stopped
| built (exec : BuildExec)
| triedRestart
| started
| waited (secs : Nat)
deriving DecidableEq, Repr

/-- buildApp (cmd_run.go:158-180): run the build command. An `ExitError`
becomes the recoverable `errBuildFailed` and returns at once; any other
execution error is returned as-is; only on success does the function reach
the non-blocking send on the restart channel. -/
def buildAppM (exec : BuildExec) (restartCh : Nat) : Option BuildErr × Nat × List Action :=
  match exec with
  | BuildExec.exitError => (some BuildErr.buildFailed, restartCh, [Action.built BuildExec.exitError])
  | BuildExec.otherError => (some BuildErr.fatal, restartCh, [Action.built BuildExec.otherError])
  | BuildExec.success =>
    (none, trySend restartCap restartCh, [Action.built BuildExec.success, Action.triedRestart])

/-- Supervisor loop state: whether `cmd` is non-nil, the backoff duration
`secs` (in seconds), and the number of signals pending in the restart
channel. -/
structure MState where
  cmdRunning : Bool
  secs : Nat
  restartCh : Nat
deriving DecidableEq, Repr

/-- One select-branch activation of the appManager loop. Fallible external
calls are resolved by the event: `stopOk` is the stopProcess outcome (only
consulted when a process is running; with no process the protocol is a
no-op), `exec` the build command's outcome, `startOk` the startProcess
outcome, `failed` whether the exited process reported an error. -/
inductive MEv
| rebuildSig (stopOk : Bool) (exec : BuildExec)
| restartSig (stopOk : Bool) (startOk : Bool)
| procExit (failed : Bool)
| ctxDone
deriving DecidableEq, Repr

inductive MOut
| next (s : MState) (acts : List Action)
| finished (fatal : Bool) (acts : List Action)
| blocked (acts : List Action)
deriving DecidableEq, Repr

/-- `secs = secs * 2; if secs > 8*time.Second { secs = 8 * time.Second }`
(cmd_run.go:248-251). -/
def capSecs (k : Nat) : Nat := if k * 2 > 8 then 8 else k * 2

/-- The body of the appManager select loop (cmd_run.go:193-261).

* rebuild branch: stopProcess first (a failure there returns the error),
  then `cmd = nil`, then buildApp; `errBuildFailed` just continues the
  loop, a fatal build error returns, and on success the backoff resets to
  one second and a second non-blocking restart send is attempted.
* restart branch: stopProcess, then startProcess; a start failure returns
  the error; on success one pending restart signal has been consumed.
* runerr branch: `cmd = nil`; with auto-restart the loop waits the current
  backoff, doubles it with the 8s cap, and performs a plain (blocking)
  send on the restart channel — it blocks when a signal is already
  pending; without auto-restart it only logs.
* ctx.Done: return nil. Cancellation during the backoff wait also returns
  nil and is subsumed by this event. -/
def appStep (shouldRestart : Bool) (s : MState) : MEv → MOut
| MEv.ctxDone => MOut.finished false []
| MEv.rebuildSig stopOk exec =>
  if s.cmdRunning && !stopOk then MOut.finished true [Action.stopped]
  else
    let b := buildAppM exec s.restartCh
    match b.1 with
    | some BuildErr.buildFailed => MOut.next ⟨false, s.secs, b.2.1⟩ (Action.stopped :: b.2.2)
    | some BuildErr.fatal => MOut.finished true (Action.stopped :: b.2.2)
    | none =>
      MOut.next ⟨false, 1, trySend restartCap b.2.1⟩
        (Action.stopped :: b.2.2 ++ [Action.triedRestart])
| MEv.restartSig stopOk startOk =>
  if s.cmdRunning && !stopOk then MOut.finished true [Action.stopped]
  else if startOk then MOut.next ⟨true, s.secs, s.restartCh - 1⟩ [Action.stopped, Action.started]
  else MOut.finished true [Action.stopped]
| MEv.procExit _ =>
  if shouldRestart then
    if s.restartCh < restartCap then
      MOut.next ⟨false, capSecs s.secs, s.restartCh + 1⟩ [Action.waited s.secs]
    else MOut.blocked [Action.waited s.secs]
  else MOut.next ⟨false, s.secs, s.restartCh⟩ []

def actsOf : MOut → List Action
| MOut.next _ a => a
| MOut.finished _ a => a
| MOut.blocked a => a

/-- A select branch can only be taken when its channel has something to
deliver: a restart signal needs a pending signal in the buffer, and the
runerr branch needs a live command. -/
def enabledEv (s : MState) : MEv → Bool
| MEv.restartSig _ _ => decide (1 ≤ s.restartCh)
| MEv.procExit _ => s.cmdRunning
| _ => true

inductive RunRes
| running (s : MState)
| finished (fatal : Bool)
| blocked
deriving DecidableEq, Repr

/-- Drive the supervisor loop over a list of branch activations; `none`
marks an invalid trace (a branch fired with nothing to deliver). -/
def runMgr (sr : Bool) : MState → List MEv → Option (RunRes × List Action)
| s, [] => some (RunRes.running s, [])
| s, e :: rest =>
  if enabledEv s e then
    match appStep sr s e with
    | MOut.next s2 acts =>
      match runMgr sr s2 rest with
      | some r => some (r.1, acts ++ r.2)
      | none => none
    | MOut.finished f acts => some (RunRes.finished f, acts)
    | MOut.blocked acts => some (RunRes.blocked, acts)
  else none

/-- Startup of appManager (cmd_run.go:184-191): the initial buildApp; an
error other than `errBuildFailed` aborts the manager, otherwise the loop
begins with no process and the backoff at one second. -/
def appInit (exec : BuildExec) (restartCh0 : Nat) : Option (MState × List Action) :=
  let b := buildAppM exec restartCh0
  match b.1 with
  | some BuildErr.fatal => none
  | _ => some (⟨false, 1, b.2.1⟩, b.2.2)

/-- One crash/auto-restart cycle: the process exits, the backoff branch
runs, and the emitted restart signal is then consumed to start again. -/
def failCycle : List MEv := [MEv.procExit true, MEv.restartSig true true]

def failCycles : Nat → List MEv
| 0 => []
| n + 1 => failCycle ++ failCycles n

def waitedSecs (acts : List Action) : List Nat :=
  acts.filterMap (fun a => match a with | Action.waited k => some k | _ => none)

/-- The backoff value before the i-th consecutive failure: doubling from a
1-second floor, capped at 8 seconds. -/
def backoffRef (i : Nat) : Nat := min (2 ^ i) 8

/-! ### Stop protocol (stopProcess, cmd_run.go:289-340)

Four tasks run under one errgroup scope: the interrupt signal is sent at
once (its error, if any, is the group's first and cancels the scope, so the
timers abort); the completion watcher cancels the scope when the process
exits; the 3s notice is purely a log; the 15s task force-kills unless the
scope was cancelled first. The group's error is discarded when it is
`os.ErrProcessDone`. -/

inductive CallRes
| ok
| processDone
| otherErr
deriving DecidableEq, Repr

/-- Whether stopProcess returns a (non-nil) error, given: whether a command
is recorded at all, the result of `cmd.Process.Signal(os.Interrupt)`,
whether the process exits before the 15-second kill deadline, and the
result of `cmd.Process.Kill()` when that deadline fires. -/
def stopProcessErr (running : Bool) (sigRes : CallRes) (exitBefore15 : Bool)
    (killRes : CallRes) : Bool :=
  if running = false then false
  else
    match sigRes with
    | CallRes.otherErr => true
    | CallRes.processDone => false
    | CallRes.ok =>
      if exitBefore15 then false
      else
        match killRes with
        | CallRes.otherErr => true
        | _ => false

/-- The forced-kill path fires when a process is recorded, the interrupt
signal call itself succeeded (a failure cancels the kill timer's scope),
and the process does not exit before the 15-second deadline. -/
def forcedKillFires (running : Bool) (sigRes : CallRes) (exitBefore15 : Bool) : Bool :=
  running && (decide (sigRes = CallRes.ok)) && !exitBefore15

def killCallFails (running : Bool) (sigRes : CallRes) (exitBefore15 : Bool)
    (killRes : CallRes) : Bool :=
  forcedKillFires running sigRes exitBefore15 && decide (killRes = CallRes.otherErr)

/-! ### Test mode (cmd_test_.go:31-112) -/

inductive TExec
| success
| exitError
| otherError
deriving DecidableEq, Repr

/-- A test-loop activation: cancellation, or a reload signal together with
the test command's outcome and whether the context was already cancelled
when the command returned. -/
inductive TEv
| ctxDone
| reload (exec : TExec) (ctxCancelled : Bool)
deriving DecidableEq, Repr

structure TState where
  runs : Nat
deriving DecidableEq, Repr

inductive TOut
| next (s : TState)
| finished (err : Bool) (s : TState)
deriving DecidableEq, Repr

/-- The test-mode reload loop body (cmd_test_.go:62-103): every reload runs
the command once. On an error the loop first checks `ctx.Err()` and returns
nil if the context is cancelled; an `ExitError` is logged and the loop
continues waiting; any other error is returned. -/
def testStep (s : TState) : TEv → TOut
| TEv.ctxDone => TOut.finished false s
| TEv.reload exec cc =>
  match exec with
  | TExec.success => TOut.next ⟨s.runs + 1⟩
  | TExec.exitError => if cc then TOut.finished false ⟨s.runs + 1⟩ else TOut.next ⟨s.runs + 1⟩
  | TExec.otherError => if cc then TOut.finished false ⟨s.runs + 1⟩ else TOut.finished true ⟨s.runs + 1⟩

def runTest : TState → List TEv → TState × Option Bool
| s, [] => (s, none)
| s, e :: rest =>
  match testStep s e with
  | TOut.next s2 => runTest s2 rest
  | TOut.finished f s2 => (s2, some f)

/-! ### Aggregator lemmas -/

/-- While every event of a burst arrives before the pending deadline and is
classified, the timer never fires mid-burst: no decision is emitted, the
deadline tracks the last event, and the pending flag records whether any
event was build-classified. -/
theorem runAgg_chain (exts : List String) :
    ∀ (rest : List (Nat × String)) (b : Bool) (tp : Nat),
      chainFrom tp rest = true →
      allClassified exts rest = true →
      runAgg exts ⟨b, some (tp + debounceMs)⟩ rest
        = (⟨b || anyBuild exts rest, some (lastTimeFrom tp rest + debounceMs)⟩, []) := by
  intro rest
  induction rest with
  | nil =>
    intro b tp _ _
    simp [runAgg, lastTimeFrom, anyBuild]
  | cons e rs ih =>
    intro b tp hch hcl
    obtain ⟨t, p⟩ := e
    simp only [chainFrom, Bool.and_eq_true, decide_eq_true_eq] at hch
    obtain ⟨⟨h1, h2⟩, h3⟩ := hch
    simp only [allClassified, List.all_cons, Bool.and_eq_true, decide_eq_true_eq] at hcl
    obtain ⟨hc1, hc2⟩ := hcl
    have hm : maybeFire ⟨b, some (tp + debounceMs)⟩ t = (⟨b, some (tp + debounceMs)⟩, []) := by
      simp [maybeFire, Nat.not_le.mpr h2]
    have hcl2 : allClassified exts rs = true := hc2
    cases hcase : classify exts p with
    | build =>
      have step := ih true t h3 hcl2
      simp only [runAgg, hm, onChange, hcase, step, List.nil_append, lastTimeFrom]
      simp [anyBuild, hcase]
    | restartOnly =>
      have step := ih b t h3 hcl2
      simp only [runAgg, hm, onChange, hcase, step, List.nil_append, lastTimeFrom]
      simp [anyBuild, hcase]
    | ignored => exact absurd hcase hc1

/-- A classified burst starting from the idle aggregator produces no
mid-burst decision and leaves the timer armed at (last event + 50ms). -/
theorem runAgg_burst (exts : List String) (t : Nat) (p : String)
    (rest : List (Nat × String))
    (hch : chainFrom t rest = true)
    (hcl : allClassified exts ((t, p) :: rest) = true) :
    runAgg exts initAgg ((t, p) :: rest)
      = (⟨anyBuild exts ((t, p) :: rest), some (lastTimeFrom t rest + debounceMs)⟩, []) := by
  simp only [allClassified, List.all_cons, Bool.and_eq_true, decide_eq_true_eq] at hcl
  obtain ⟨hc1, hc2⟩ := hcl
  have hm : maybeFire ⟨false, none⟩ t = (⟨false, none⟩, []) := by simp [maybeFire]
  have hcl2 : allClassified exts rest = true := hc2
  cases hcase : classify exts p with
  | build =>
    have step := runAgg_chain exts rest true t hch hcl2
    simp only [runAgg, initAgg, hm, onChange, hcase, step, List.nil_append]
    simp [anyBuild, hcase]
  | restartOnly =>
    have step := runAgg_chain exts rest false t hch hcl2
    simp only [runAgg, initAgg, hm, onChange, hcase, step, List.nil_append]
    simp [anyBuild, hcase]
  | ignored => exact absurd hcase hc1

/-- Ignored events leave an un-armed aggregator untouched. -/
theorem runAgg_allIgnored (exts : List String) :
    ∀ (events : List (Nat × String)) (s : AggState),
      allIgnored exts events = true → s.deadline = none →
      runAgg exts s events = (s, []) := by
  intro events
  induction events with
  | nil => intro s _ _; simp [runAgg]
  | cons e rs ih =>
    intro s hig hd
    obtain ⟨t, p⟩ := e
    simp only [allIgnored, List.all_cons, Bool.and_eq_true, decide_eq_true_eq] at hig
    obtain ⟨hg1, hg2⟩ := hig
    have hm : maybeFire s t = (s, []) := by simp [maybeFire, hd]
    have ho : onChange exts s t p = s := by simp [onChange, hg1]
    have step := ih s hg2 hd
    simp only [runAgg, hm, ho, step, List.nil_append]

theorem allRestartOnly_classified (exts : List String) (events : List (Nat × String))
    (h : allRestartOnly exts events = true) : allClassified exts events = true := by
  simp only [allRestartOnly, List.all_eq_true, decide_eq_true_eq] at h
  simp only [allClassified, List.all_eq_true, decide_eq_true_eq]
  intro e he
  rw [h e he]
  intro hc
  exact FileClass.noConfusion hc

theorem allRestartOnly_no_build (exts : List String) (events : List (Nat × String))
    (h : allRestartOnly exts events = true) : anyBuild exts events = false := by
  simp only [allRestartOnly, List.all_eq_true, decide_eq_true_eq] at h
  rw [← Bool.not_eq_true]
  simp only [anyBuild, List.any_eq_true, decide_eq_true_eq, not_exists]
  intro e hand
  obtain ⟨he, hc⟩ := hand
  rw [h e he] at hc
  exact FileClass.noConfusion hc

/-! ### Claim theorems: change aggregator -/

/-- C5: for any burst of N ≥ 1 classified change events each arriving
within 50ms of the previous one, the aggregator emits exactly one decision,
timestamped 50ms after the last event of the burst; and every classified
event re-arms the debounce timer to fire 50ms after that event. -/
theorem c5_debounce_single_decision (exts : List String) (t : Nat) (p : String)
    (rest : List (Nat × String))
    (hch : chainFrom t rest = true)
    (hcl : allClassified exts ((t, p) :: rest) = true) :
    (∃ d, aggTrace exts ((t, p) :: rest) = [(lastTimeFrom t rest + debounceMs, d)])
    ∧ (∀ (s : AggState) (now : Nat) (q : String), classify exts q ≠ FileClass.ignored →
        (onChange exts s now q).deadline = some (now + debounceMs)) := by
  constructor
  · have hb := runAgg_burst exts t p rest hch hcl
    refine ⟨(fireDecision ⟨anyBuild exts ((t, p) :: rest),
      some (lastTimeFrom t rest + debounceMs)⟩).2, ?_⟩
    simp [aggTrace, hb, finalFlush]
  · intro s now q hq
    cases hcase : classify exts q with
    | build => simp [onChange, hcase]
    | restartOnly => simp [onChange, hcase]
    | ignored => exact absurd hcase hq

/-- C5 witness: two `.go` events at 0ms and 10ms yield a single decision at
60ms. -/
theorem c5_debounce_single_decision_witness :
    (∃ d, aggTrace [] [(0, "foo.go"), (10, "bar.go")] = [(10 + debounceMs, d)])
    ∧ (∀ (s : AggState) (now : Nat) (q : String), classify [] q ≠ FileClass.ignored →
        (onChange [] s now q).deadline = some (now + debounceMs)) :=
  c5_debounce_single_decision [] 0 "foo.go" [(10, "bar.go")] (by decide) (by decide)

/-- C6: the kind of the flushed decision is fixed by the burst's contents
regardless of order: a burst containing any `.go` event flushes a single
rebuild and leaves the pending-build flag cleared; a burst of only
restart-extension events flushes a single restart, and the supervisor's
restart branch never invokes a build; a burst of only other-extension
events arms no timer and emits nothing. -/
theorem c6_decision_kind (exts : List String) (t : Nat) (p : String)
    (rest : List (Nat × String)) :
    (chainFrom t rest = true → allClassified exts ((t, p) :: rest) = true →
      anyBuild exts ((t, p) :: rest) = true →
      aggTrace exts ((t, p) :: rest) = [(lastTimeFrom t rest + debounceMs, Decision.rebuild)]
      ∧ (aggFinal exts ((t, p) :: rest)).buildPending = false)
    ∧ (chainFrom t rest = true → allRestartOnly exts ((t, p) :: rest) = true →
      aggTrace exts ((t, p) :: rest) = [(lastTimeFrom t rest + debounceMs, Decision.restart)]
      ∧ (∀ (sr : Bool) (s : MState) (stopOk startOk : Bool) (ex : BuildExec),
          Action.built ex ∉ actsOf (appStep sr s (MEv.restartSig stopOk startOk))))
    ∧ (allIgnored exts ((t, p) :: rest) = true →
      aggTrace exts ((t, p) :: rest) = []
      ∧ (runAgg exts initAgg ((t, p) :: rest)).1.deadline = none) := by
  refine ⟨?_, ?_, ?_⟩
  · intro hch hcl hany
    have hb := runAgg_burst exts t p rest hch hcl
    constructor
    · simp [aggTrace, hb, finalFlush, fireDecision, hany]
    · simp [aggFinal, hb, fireDecision, hany]
  · intro hch hro
    have hcl := allRestartOnly_classified exts ((t, p) :: rest) hro
    have hnb := allRestartOnly_no_build exts ((t, p) :: rest) hro
    have hb := runAgg_burst exts t p rest hch hcl
    constructor
    · simp [aggTrace, hb, finalFlush, fireDecision, hnb]
    · intro sr s stopOk startOk ex
      simp only [appStep]
      split
      · simp [actsOf]
      · split <;> simp [actsOf]
  · intro hig
    have hb := runAgg_allIgnored exts ((t, p) :: rest) initAgg hig rfl
    constructor
    · simp only [aggTrace]
      rw [hb]
      simp [finalFlush, initAgg]
    · rw [hb]; rfl

/-- C6 witness: a lone `config.yml` burst (with `.yml` in the restart
extensions) flushes exactly one restart and no build. -/
theorem c6_decision_kind_witness :
    aggTrace [".yml"] [(0, "config.yml")] = [(0 + debounceMs, Decision.restart)]
    ∧ (∀ (sr : Bool) (s : MState) (stopOk startOk : Bool) (ex : BuildExec),
        Action.built ex ∉ actsOf (appStep sr s (MEv.restartSig stopOk startOk))) :=
  (c6_decision_kind [".yml"] 0 "config.yml" []).2.1 (by decide) (by decide)

/-! ### Supervisor lemmas -/

/-- Doubling with the 8-second cap advances the reference backoff sequence
by one position. -/
theorem capSecs_backoffRef (j : Nat) : capSecs (backoffRef j) = backoffRef (j + 1) := by
  have h : (2 : Nat) ^ (j + 1) = 2 ^ j * 2 := pow_succ 2 j
  unfold capSecs backoffRef
  rw [h]
  generalize (2 : Nat) ^ j = x
  split <;> omega

/-- n consecutive crash/auto-restart cycles from backoff position j record
the waits `backoffRef j, …, backoffRef (j+n-1)` and end with a running
process at backoff position j+n. -/
theorem runMgr_failCycles :
    ∀ (n j : Nat),
      ∃ acts, runMgr true ⟨true, backoffRef j, 0⟩ (failCycles n)
        = some (RunRes.running ⟨true, backoffRef (j + n), 0⟩, acts)
        ∧ waitedSecs acts = (List.range n).map (fun i => backoffRef (j + i)) := by
  intro n
  induction n with
  | zero =>
    intro j
    exact ⟨[], by simp [failCycles, runMgr, waitedSecs]⟩
  | succ n ih =>
    intro j
    obtain ⟨acts, hrun, hwait⟩ := ih (j + 1)
    refine ⟨Action.waited (backoffRef j) :: (Action.stopped :: Action.started :: acts), ?_, ?_⟩
    · have h1 : appStep true ⟨true, backoffRef j, 0⟩ (MEv.procExit true)
          = MOut.next ⟨false, backoffRef (j + 1), 1⟩ [Action.waited (backoffRef j)] := by
        simp [appStep, restartCap, capSecs_backoffRef j]
      have h2 : appStep true ⟨false, backoffRef (j + 1), 1⟩ (MEv.restartSig true true)
          = MOut.next ⟨true, backoffRef (j + 1), 0⟩ [Action.stopped, Action.started] := by
        simp [appStep]
      have hgoal : failCycles (n + 1)
          = MEv.procExit true :: MEv.restartSig true true :: failCycles n := rfl
      rw [hgoal]
      simp only [runMgr, enabledEv, h1, h2]
      rw [hrun]
      have hj : j + 1 + n = j + (n + 1) := by omega
      rw [hj] at hrun ⊢
      simp [runMgr, enabledEv, h1, h2, hrun]
    · have hs : waitedSecs (Action.waited (backoffRef j)
          :: (Action.stopped :: Action.started :: acts))
          = backoffRef j :: waitedSecs acts := by
        simp [waitedSecs]
      rw [hs, hwait, List.range_succ_eq_map, List.map_cons, List.map_map]
      have hf : ((fun i => backoffRef (j + i)) ∘ Nat.succ)
          = fun i => backoffRef (j + 1 + i) := by
        funext i
        simp only [Function.comp]
        congr 1
        omega
      rw [hf]
      simp

/-- If a non-restart event produces a `next` state, that state has no
running process: only the restart branch ever starts one. -/
theorem appStep_next_no_start (sr : Bool) (s s2 : MState) (e : MEv) (acts : List Action)
    (hne : ∀ a b, e ≠ MEv.restartSig a b)
    (h : appStep sr s e = MOut.next s2 acts) : s2.cmdRunning = false := by
  cases e with
  | rebuildSig stopOk exec =>
    simp only [appStep] at h
    split at h
    · exact MOut.noConfusion h
    · cases exec <;> simp [buildAppM] at h <;> rw [← h.1]
  | restartSig a b => exact absurd rfl (hne a b)
  | procExit f =>
    simp only [appStep] at h
    split at h
    · split at h
      · injection h with h1 _; rw [← h1]
      · exact MOut.noConfusion h
    · injection h with h1 _; rw [← h1]
  | ctxDone => exact MOut.noConfusion h

/-! ### Claim theorems: build coordinator and supervisor -/

/-- C1 counterexample: a recoverable failure of the initial build emits no
restart attempt at all — the restart channel stays empty and the recorded
actions contain no restart send, so nothing launches a process. -/
theorem c1_counterexample :
    ∃ s0 acts, appInit BuildExec.exitError 0 = some (s0, acts)
      ∧ Action.triedRestart ∉ acts ∧ s0.restartCh = 0 :=
  ⟨⟨false, 1, 0⟩, [Action.built BuildExec.exitError], rfl, by decide, rfl⟩

/-- C1 (amended): after the initial build at startup the manager attempts a
non-blocking coalesced restart send exactly when the build succeeded; a
recoverable failure (non-zero build exit) continues into the wait loop with
no restart attempted, and any other build error aborts the manager. -/
theorem c1_initial_build_signal (ch : Nat) :
    appInit BuildExec.success ch
      = some (⟨false, 1, trySend restartCap ch⟩,
          [Action.built BuildExec.success, Action.triedRestart])
    ∧ appInit BuildExec.exitError ch
      = some (⟨false, 1, ch⟩, [Action.built BuildExec.exitError])
    ∧ appInit BuildExec.otherError ch = none :=
  ⟨rfl, rfl, rfl⟩

/-- C3 counterexample: the crash-backoff branch's restart emission is a
plain channel send; with a restart signal already pending it blocks instead
of dropping, and the rebuild channel is unbuffered (capacity 0), not
capacity 1. -/
theorem c3_counterexample :
    appStep true ⟨true, 1, 1⟩ (MEv.procExit true) = MOut.blocked [Action.waited 1]
    ∧ rebuildCap = 0 := by
  constructor
  · simp [appStep, restartCap, capSecs]
  · rfl

/-- C3 (amended): the restart channel has capacity 1 and the rebuild
channel capacity 0; every emission except the crash-backoff one is a
non-blocking coalesced send (a supervisor step can only block on the
crash-backoff branch, with auto-restart on and a restart already pending),
and a non-blocking send never grows a channel beyond its capacity. -/
theorem c3_blocking_inventory :
    restartCap = 1 ∧ rebuildCap = 0
    ∧ (∀ (sr : Bool) (s : MState) (e : MEv) (acts : List Action),
        appStep sr s e = MOut.blocked acts →
          sr = true ∧ (∃ f, e = MEv.procExit f) ∧ restartCap ≤ s.restartCh)
    ∧ (∀ c n : Nat, n ≤ c → trySend c n ≤ c) := by
  refine ⟨rfl, rfl, ?_, ?_⟩
  · intro sr s e acts h
    cases e with
    | rebuildSig stopOk exec =>
      exfalso
      simp only [appStep] at h
      split at h
      · exact MOut.noConfusion h
      · cases exec <;> simp [buildAppM] at h
    | restartSig a b =>
      exfalso
      simp only [appStep] at h
      split at h
      · exact MOut.noConfusion h
      · split at h <;> exact MOut.noConfusion h
    | procExit f =>
      simp only [appStep] at h
      split at h
      case isTrue hsr =>
        split at h
        case isTrue => exact MOut.noConfusion h
        case isFalse hlt => exact ⟨hsr, ⟨f, rfl⟩, Nat.le_of_not_lt hlt⟩
      case isFalse => exact MOut.noConfusion h
    | ctxDone => exact MOut.noConfusion h
  · intro c n hn
    unfold trySend
    split <;> omega

/-- C3 witness for the amended statement, at the blocked backoff step and a
concrete coalesced send. -/
theorem c3_blocking_inventory_witness :
    ((true = true) ∧ (∃ f, MEv.procExit true = MEv.procExit f)
      ∧ restartCap ≤ (⟨true, 1, 1⟩ : MState).restartCh)
    ∧ trySend 1 1 ≤ 1 :=
  ⟨c3_blocking_inventory.2.2.1 true ⟨true, 1, 1⟩ (MEv.procExit true) [Action.waited 1]
      (by simp [appStep, restartCap, capSecs]),
    c3_blocking_inventory.2.2.2 1 1 (by decide)⟩

/-- C4: starting from the 1-second floor, the waits observed over n
consecutive process exits (with auto-restart on) are 1s, 2s, 4s, 8s, 8s, …
— `min (2^i) 8` before the i-th restart — and a successful rebuild resets
the backoff to the 1-second floor. -/
theorem c4_backoff_sequence (n : Nat) :
    (∃ acts, runMgr true ⟨true, 1, 0⟩ (failCycles n)
        = some (RunRes.running ⟨true, backoffRef n, 0⟩, acts)
        ∧ waitedSecs acts = (List.range n).map backoffRef)
    ∧ (∀ (sr : Bool) (s : MState),
        appStep sr s (MEv.rebuildSig true BuildExec.success)
          = MOut.next ⟨false, 1, trySend restartCap (trySend restartCap s.restartCh)⟩
              [Action.stopped, Action.built BuildExec.success,
                Action.triedRestart, Action.triedRestart]) := by
  constructor
  · obtain ⟨acts, hrun, hwait⟩ := runMgr_failCycles n 0
    refine ⟨acts, ?_, ?_⟩
    · have h0 : backoffRef 0 = 1 := by decide
      rw [← h0]
      simpa using hrun
    · simpa using hwait
  · intro sr s
    simp [appStep, buildAppM]

/-- C7: a non-zero build exit on a rebuild signal is recoverable — the loop
continues with no process, the restart channel untouched and no restart
send among the recorded actions — while any other build-execution error
terminates the manager, both in the loop and at startup. -/
theorem c7_build_failure_handling (sr : Bool) (s : MState) :
    appStep sr s (MEv.rebuildSig true BuildExec.exitError)
      = MOut.next ⟨false, s.secs, s.restartCh⟩ [Action.stopped, Action.built BuildExec.exitError]
    ∧ appStep sr s (MEv.rebuildSig true BuildExec.otherError)
      = MOut.finished true [Action.stopped, Action.built BuildExec.otherError]
    ∧ appInit BuildExec.otherError s.restartCh = none := by
  refine ⟨?_, ?_, rfl⟩
  · simp [appStep, buildAppM]
  · simp [appStep, buildAppM]

/-- C9 counterexample: with a restart signal left pending by the successful
initial build, a rebuild whose build fails is followed by a process start
with no successful build anywhere in between — the launch is driven by the
earlier pending signal, not by a later successful build. -/
theorem c9_counterexample :
    appInit BuildExec.success 0
      = some (⟨false, 1, 1⟩, [Action.built BuildExec.success, Action.triedRestart])
    ∧ runMgr true ⟨false, 1, 1⟩
        [MEv.rebuildSig true BuildExec.exitError, MEv.restartSig true true]
      = some (RunRes.running ⟨true, 1, 0⟩,
          [Action.stopped, Action.built BuildExec.exitError, Action.stopped, Action.started])
    ∧ Action.built BuildExec.success
        ∉ [Action.stopped, Action.built BuildExec.exitError, Action.stopped, Action.started] := by
  refine ⟨rfl, ?_, by decide⟩
  simp [runMgr, enabledEv, appStep, buildAppM, restartCap]

/-- C9 (amended): on a rebuild signal the stop protocol runs before the
build is invoked (the stop action precedes the build action in every
outcome); a failed build leaves no process running and starts none; and
from a process-free state the process stays stopped until some restart
signal is processed — though that signal may have been left pending by an
earlier successful build rather than emitted by a later one. -/
theorem c9_stop_before_build_no_start :
    (∀ (sr : Bool) (s : MState) (exec : BuildExec),
      (actsOf (appStep sr s (MEv.rebuildSig true exec))).take 2
        = [Action.stopped, Action.built exec])
    ∧ (∀ (sr : Bool) (s : MState),
        appStep sr s (MEv.rebuildSig true BuildExec.exitError)
          = MOut.next ⟨false, s.secs, s.restartCh⟩
              [Action.stopped, Action.built BuildExec.exitError])
    ∧ (∀ (sr : Bool) (s : MState) (evs : List MEv) (s2 : MState) (acts : List Action),
        s.cmdRunning = false →
        (∀ e ∈ evs, ∀ a b, e ≠ MEv.restartSig a b) →
        runMgr sr s evs = some (RunRes.running s2, acts) →
        s2.cmdRunning = false) := by
  refine ⟨?_, ?_, ?_⟩
  · intro sr s exec
    cases exec <;> simp [appStep, buildAppM, actsOf]
  · intro sr s
    simp [appStep, buildAppM]
  · intro sr s evs
    induction evs generalizing s with
    | nil =>
      intro s2 acts hcr _ hrun
      simp only [runMgr, Option.some.injEq, Prod.mk.injEq] at hrun
      obtain ⟨h1, _⟩ := hrun
      cases h1
      exact hcr
    | cons e rest ih =>
      intro s2 acts hcr hne hrun
      simp only [runMgr] at hrun
      split at hrun
      case isFalse => exact Option.noConfusion hrun
      case isTrue =>
        cases hstep : appStep sr s e with
        | next s3 acts3 =>
          rw [hstep] at hrun
          dsimp only at hrun
          have h3 : s3.cmdRunning = false :=
            appStep_next_no_start sr s s3 e acts3 (hne e (List.mem_cons_self e rest)) hstep
          cases hrest : runMgr sr s3 rest with
          | none =>
            rw [hrest] at hrun
            exact Option.noConfusion hrun
          | some r =>
            rw [hrest] at hrun
            dsimp only at hrun
            simp only [Option.some.injEq, Prod.mk.injEq] at hrun
            obtain ⟨h1, _⟩ := hrun
            exact ih s3 s2 r.2 h3 (fun x hx => hne x (List.mem_cons_of_mem e hx))
              (by rw [hrest, ← h1])
        | finished f acts3 =>
          rw [hstep] at hrun
          dsimp only at hrun
          simp only [Option.some.injEq, Prod.mk.injEq] at hrun
          exact RunRes.noConfusion hrun.1
        | blocked acts3 =>
          rw [hstep] at hrun
          dsimp only at hrun
          simp only [Option.some.injEq, Prod.mk.injEq] at hrun
          exact RunRes.noConfusion hrun.1

/-- C9 witness for the amended statement, at a concrete failed rebuild with
no restart signal in the trace. -/
theorem c9_stop_before_build_no_start_witness :
    (⟨false, 1, 0⟩ : MState).cmdRunning = false :=
  c9_stop_before_build_no_start.2.2 true ⟨false, 1, 0⟩
    [MEv.rebuildSig true BuildExec.exitError] ⟨false, 1, 0⟩
    [Action.stopped, Action.built BuildExec.exitError] rfl
    (by intro e he a b; simp only [List.mem_singleton] at he; rw [he]; intro hc;
        exact MEv.noConfusion hc)
    (by simp [runMgr, enabledEv, appStep, buildAppM])

/-! ### Claim theorems: stop protocol -/

/-- C2 counterexample: when the interrupt-signal call itself fails with an
error other than process-already-finished, the protocol returns an error
even though the forced-kill path never fires and the kill call never
fails. -/
theorem c2_counterexample :
    stopProcessErr true CallRes.otherErr true CallRes.ok = true
    ∧ forcedKillFires true CallRes.otherErr true = false
    ∧ killCallFails true CallRes.otherErr true CallRes.ok = false := by
  decide

/-- C2 (amended): the stop protocol returns an error exactly when a process
is recorded and either the interrupt-signal call, or — after the 15-second
deadline fires — the kill call, fails with an error other than
process-already-finished; a process that exits before the deadline yields
no error and process-already-finished is success. -/
theorem c2_error_characterization :
    ∀ (r : Bool) (s : CallRes) (e : Bool) (k : CallRes),
      stopProcessErr r s e k
        = (r && ((decide (s = CallRes.otherErr))
            || ((decide (s = CallRes.ok)) && !e && (decide (k = CallRes.otherErr))))) := by
  intro r s e k
  cases r <;> cases s <;> cases e <;> cases k <;> rfl

/-! ### Claim theorems: test mode -/

/-- C8: in test mode a non-zero test exit just continues the loop (one run
consumed, nothing re-queued), and over any trace of reload signals that run
tests to success or recoverable failure the number of test runs equals the
number of reload signals — no run ever happens without a fresh signal. -/
theorem c8_test_no_auto_retry :
    (∀ s : TState, testStep s (TEv.reload TExec.exitError false) = TOut.next ⟨s.runs + 1⟩)
    ∧ (∀ (s : TState) (evs : List TEv),
        (∀ e ∈ evs, (∃ cc, e = TEv.reload TExec.success cc)
          ∨ e = TEv.reload TExec.exitError false) →
        runTest s evs = (⟨s.runs + evs.length⟩, none)) := by
  constructor
  · intro s; rfl
  · intro s evs
    induction evs generalizing s with
    | nil =>
      intro _
      simp [runTest]
    | cons e rest ih =>
      intro hall
      have he := hall e (List.mem_cons_self e rest)
      have hrest : ∀ x ∈ rest, (∃ cc, x = TEv.reload TExec.success cc)
          ∨ x = TEv.reload TExec.exitError false :=
        fun x hx => hall x (List.mem_cons_of_mem e hx)
      rcases he with ⟨cc, hcc⟩ | hee
      · subst hcc
        have hstep : testStep s (TEv.reload TExec.success cc) = TOut.next ⟨s.runs + 1⟩ := rfl
        simp only [runTest, hstep]
        rw [ih ⟨s.runs + 1⟩ hrest]
        have harith : s.runs + 1 + rest.length = s.runs + (rest.length + 1) := by omega
        simp only [List.length_cons, harith]
      · subst hee
        have hstep : testStep s (TEv.reload TExec.exitError false) = TOut.next ⟨s.runs + 1⟩ := rfl
        simp only [runTest, hstep]
        rw [ih ⟨s.runs + 1⟩ hrest]
        have harith : s.runs + 1 + rest.length = s.runs + (rest.length + 1) := by omega
        simp only [List.length_cons, harith]

/-- C8 witness: two failing test runs from two reload signals. -/
theorem c8_test_no_auto_retry_witness :
    runTest ⟨0⟩ [TEv.reload TExec.exitError false, TEv.reload TExec.exitError false]
      = (⟨0 + [TEv.reload TExec.exitError false, TEv.reload TExec.exitError false].length⟩,
          none) :=
  c8_test_no_auto_retry.2 ⟨0⟩ _
    (by
      intro e he
      simp only [List.mem_cons, List.not_mem_nil, or_false] at he
      rcases he with h | h <;> exact Or.inr h)

/-- C10: in test mode, a test command that ends with an error while the
governing context is already cancelled makes the loop return nil — a clean
shutdown — whether the error is a non-zero exit or any other execution
error. -/
theorem c10_cancelled_clean_return (s : TState) :
    testStep s (TEv.reload TExec.exitError true) = TOut.finished false ⟨s.runs + 1⟩
    ∧ testStep s (TEv.reload TExec.otherError true) = TOut.finished false ⟨s.runs + 1⟩ :=
  ⟨rfl, rfl⟩

end Reloader
